import Mathlib

/-!
Verification development for the NetCDF snapshot writer `NCFile`
(`mpi4py_fft/utilities/nc_file.py`).

The writer persists time-series snapshots of a spatially decomposed global
array.  Each worker owns a contiguous local sub-block per axis, described by a
`Slc` (a Python `slice(start, stop)`).  The NetCDF file is modelled as a pure
state `NCSt`: the `time` variable is a list of step values, each data variable
is a partial function from (time index, global spatial index) to a value, and
the `handles` cache, per-variable dimension signatures, the `slices` string
attributes and the number of `sync` calls are tracked explicitly.

Methods of `NCFile` become state-passing functions.  Pieces of the base class
`FileBase` (`file_base.py`) are not part of the given sources; those
definitions are modelled from the specification and marked as such.
-/

/-- Values stored in arrays.  Bit-identity of floating-point payloads is
modelled as equality of an abstract exact value. -/
abbrev Val := Int

/-- A Python `slice(start, stop)` along one axis. -/
structure Slc where
  start : Nat
  stop : Nat
deriving DecidableEq

/-- One entry of a global slice specification: a fixed integer index or a
full-range marker (`slice(None)` in Python). -/
inductive SpecEntry where
  | fixed (k : Nat)
  | whole
deriving DecidableEq

/-- An on-disk variable: time index and global spatial multi-index to the
stored value, `none` where nothing has been written. -/
abbrev NCVar := Nat → List Nat → Option Val

/-- The decomposition/transform object `T`: global shape, this worker's local
slice per axis (`T.local_slice(False)`), and the numpy dtype character
(`T.dtype(False).char`). -/
structure PFFT where
  N : List Nat
  localSlice : List Slc
  dtypeChar : Char

/-- `T.ndim()`: number of axes of the global shape. -/
def PFFT.ndim (T : PFFT) : Nat := T.N.length

/-- Errors surfaced at the Python level, using the specification's taxonomy
for the two constructor-time assertion failures. -/
inductive Err where
  | dimensionMismatch
  | unsupportedDType
  | indexError
  | keyError
  | notImplemented
deriving DecidableEq

/-- File open mode. -/
inductive Mode where
  | w
  | r
  | a
deriving DecidableEq

/-- State of one `NCFile` instance together with its open NetCDF file. -/
structure NCSt where
  /-- contents of the unlimited `time` variable `nc_t` -/
  time : List Val
  /-- the dimension names registered at construction, `self.dims` -/
  dims : List String
  /-- keys of the `self.handles` variable cache -/
  handles : List String
  /-- data of the file's variables, by name -/
  vars : String → NCVar
  /-- dimension signature each variable was created over -/
  varDims : String → Option (List String)
  /-- the `slices` string attribute attached to slice variables -/
  attrs : String → Option String
  /-- number of `self.f.sync()` calls issued -/
  synced : Nat

/-- Pointwise update of a string-keyed function. -/
def updf {α : Type} (f : String → α) (k : String) (v : α) : String → α :=
  fun x => if x = k then v else f x

/-- Assignment `t[i] = v` on an unlimited NetCDF variable: indices up to `i`
exist afterwards, missing entries are fill values (0). -/
def ncSet (t : List Val) (i : Nat) (v : Val) : List Val :=
  (t ++ List.replicate (i + 1 - t.length) 0).set i v

/-- Membership of a global multi-index in the box described by per-axis local
slices (used to give meaning to `handle[it, s0, s1, ...] = u`). -/
def inBox (sf : List Slc) (idx : List Nat) : Bool :=
  (List.zip idx sf).all fun p => decide (p.2.start ≤ p.1) && decide (p.1 < p.2.stop)

/-- Semantics of the NetCDF block assignment `v[it, sf0, sf1, ...] = w`:
inside the box the stored value comes from `w` at box-local coordinates,
everything else is untouched. -/
def assignN (v : NCVar) (it : Nat) (sf : List Slc) (w : List Nat → Val) : NCVar :=
  fun t idx =>
    if t == it && idx.length == sf.length && inBox sf idx then
      some (w (List.zipWith (fun i sl => i - sl.start) idx sf))
    else v t idx

/-- Whether a spec entry is a Python `slice` object. -/
def SpecEntry.isWhole : SpecEntry → Bool
  | .whole => true
  | .fixed _ => false

/-- Modelled from the spec: `FileBase._get_slice_name` (file_base.py, not under
src/) builds a canonical name from a slice specification by joining, per axis,
the literal fixed index or a wildcard marker, with a fixed separator. -/
def get_slice_name (slices : List SpecEntry) : String :=
  String.intercalate "_"
    (slices.map fun e => match e with
      | .fixed k => toString k
      | .whole => "slice")

/-- Modelled from the spec: localization of one axis of a slice specification
against this worker's local slice.  A fixed index `k` becomes the local offset
`k - start` when `start ≤ k < stop` and otherwise leaves the entry unchanged
and reports `false`; a whole-axis entry selects the full local range. -/
def localizeEntry (e : SpecEntry) (sl : Slc) : SpecEntry × Bool :=
  match e with
  | .whole => (.whole, true)
  | .fixed k => if sl.start ≤ k ∧ k < sl.stop then (.fixed (k - sl.start), true) else (.fixed k, false)

/-- Modelled from the spec: `FileBase._get_local_slices` (file_base.py, not
under src/) turns a global slice specification into this worker's local
selector and the `inside` flag, true iff every fixed axis falls inside the
worker's local range. -/
def get_local_slices : List SpecEntry → List Slc → List SpecEntry × Bool
  | [], _ => ([], true)
  | e :: rest, s =>
      let p := localizeEntry e (s.headD ⟨0, 0⟩)
      let q := get_local_slices rest s.tail
      (p.1 :: q.1, p.2 && q.2)

/-- Positions of the entries that are Python `slice` objects, in order
(`np.nonzero([isinstance(x, slice) for x in slices])[0]`). -/
def wholePositions : List SpecEntry → Nat → List Nat
  | [], _ => []
  | e :: rest, i =>
      if e.isWhole then i :: wholePositions rest (i + 1) else wholePositions rest (i + 1)

/-- Python `str` of one localized slice-list entry. -/
def entryStr : SpecEntry → String
  | .fixed k => toString k
  | .whole => "slice(None, None, None)"

/-- Python `str(slices)` of a localized slice list. -/
def pyStr (l : List SpecEntry) : String :=
  "[" ++ String.intercalate ", " (l.map entryStr) ++ "]"

/-- The indexing `u[sl]` of the worker's local block by a localized slice
tuple: whole axes consume successive coordinates of the reduced index, fixed
axes contribute their localized integer. -/
def expandIdx : List SpecEntry → List Nat → List Nat
  | [], _ => []
  | .fixed j :: rest, r => j :: expandIdx rest r
  | .whole :: rest, r => r.headD 0 :: expandIdx rest r.tail

/-- The reduced local array `u[sl]`. -/
def selectLocal (slices : List SpecEntry) (u : List Nat → Val) : List Nat → Val :=
  fun ridx => u (expandIdx slices ridx)

/-- A field passed to `write`: a complete local array, or a 2-tuple of a
global slice specification and the local array. -/
inductive FieldData where
  | full (u : List Nat → Val)
  | sliced (spec : List SpecEntry) (u : List Nat → Val)

/-- One entry of the `domain` argument: an `(origin, length)` 2-tuple, or an
explicit coordinate array. -/
inductive DomainEntry where
  | pair (origin len : ℝ)
  | array (a : List ℝ)

/-- Coordinate data a domain entry holds when assigned directly to a
coordinate variable (`nc_xyz[:] = d[i]`). -/
noncomputable def DomainEntry.asFun : DomainEntry → Nat → ℝ
  | .array a, j => a.getD j 0
  | .pair o l, j => [o, l].getD j 0

/-- The coordinate arrays `d` written at construction: when `domain[0]` is not
an ndarray (an `(origin, length)` 2-tuple), every entry is replaced by
`np.arange(N[i]) * 2 * np.pi / N[i]`; otherwise the supplied entries are
written as given. -/
noncomputable def coordArrays (domain : List DomainEntry) (N : List Nat) : List (Nat → ℝ) :=
  match domain with
  | [] => []
  | .pair _ _ :: _ =>
      (List.range domain.length).map fun i j => (j : ℝ) * 2 * Real.pi / (N.getD i 0 : ℝ)
  | .array _ :: _ => domain.map DomainEntry.asFun

/-- Modelled from the spec's words, for comparison with `coordArrays`: the
uniform grid over a supplied `(origin, length)` pair, `origin + i·length/N`
at index `i`. -/
noncomputable def uniformGridOver (origin len : ℝ) (N : Nat) (j : Nat) : ℝ :=
  origin + (j : ℝ) * len / (N : ℝ)

namespace NCFile

/-- `NCFile._write_group`: get the local slice, create and cache the variable
on first use, then write the whole local block collectively; decompositions
that are neither 2D nor 3D raise `NotImplementedError`.  The returned state
keeps mutations that happened before the raise; `f.sync()` runs only on
success. -/
def writeGroup (st : NCSt) (T : PFFT) (name : String) (u : List Nat → Val) (it : Nat) :
    NCSt × Option Err :=
  let s := T.localSlice
  let st1 :=
    if name ∈ st.handles then st
    else { st with
            handles := name :: st.handles,
            varDims := updf st.varDims name (some st.dims) }
  if T.ndim = 3 then
    ({ st1 with
        vars := updf st1.vars name
          (assignN (st1.vars name) it [s.getD 0 ⟨0, 0⟩, s.getD 1 ⟨0, 0⟩, s.getD 2 ⟨0, 0⟩] u),
        synced := st1.synced + 1 }, none)
  else if T.ndim = 2 then
    ({ st1 with
        vars := updf st1.vars name
          (assignN (st1.vars name) it [s.getD 0 ⟨0, 0⟩, s.getD 1 ⟨0, 0⟩] u),
        synced := st1.synced + 1 }, none)
  else
    (st1, some .notImplemented)

/-- `NCFile._write_slice_step`: derive the canonical slice name from the
global specification, localize it, create (and cache) the reduced variable on
first use with the `slices` string attribute, write data only when `inside`,
and sync unconditionally. -/
def writeSliceStep (st : NCSt) (T : PFFT) (name : String) (it : Nat)
    (slices0 : List SpecEntry) (u : List Nat → Val) : NCSt :=
  let slname := get_slice_name slices0
  let s := T.localSlice
  let p := get_local_slices slices0 s
  let slices := p.1
  let inside := p.2
  let sp := wholePositions slices 0
  let sf := sp.map fun i => s.getD i ⟨0, 0⟩
  let sdims := "time" :: sp.map fun i => st.dims.getD (i + 1) ""
  let fname := name ++ "_" ++ slname
  let st1 :=
    if fname ∈ st.handles then st
    else { st with
            handles := fname :: st.handles,
            varDims := updf st.varDims fname (some sdims),
            attrs := updf st.attrs fname (some (pyStr slices)) }
  let st2 :=
    if inside && decide (1 ≤ sf.length) && decide (sf.length ≤ 3) then
      { st1 with
          vars := updf st1.vars fname
            (assignN (st1.vars fname) it sf (selectLocal slices u)) }
    else st1
  { st2 with synced := st2.synced + 1 }

/-- Modelled from the spec: `FileBase.write` (file_base.py, not under src/)
dispatches each named field either to the whole-array path or to the slice
path; an exception from a field aborts the remaining fields. -/
def fileBaseWrite (st : NCSt) (T : PFFT) (it : Nat) :
    List (String × FieldData) → NCSt × Option Err
  | [] => (st, none)
  | (name, .full u) :: rest =>
      let r := writeGroup st T name u it
      match r.2 with
      | some e => (r.1, some e)
      | none => fileBaseWrite r.1 T it rest
  | (name, .sliced spec u) :: rest =>
      fileBaseWrite (writeSliceStep st T name it spec u) T it rest

/-- `NCFile.write`: read the current time-axis length, append the step value
there, then dispatch the fields at that time index. -/
def write (st : NCSt) (T : PFFT) (step : Val) (fields : List (String × FieldData)) :
    NCSt × Option Err :=
  let it := st.time.length
  fileBaseWrite { st with time := ncSet st.time it step } T it fields

/-- `NCFile.read`: the worker's local block of variable `dset` at time index
`step`, indexed by local coordinates. -/
def read (st : NCSt) (T : PFFT) (dset : String) (step : Nat) : List Nat → Option Val :=
  fun lidx => st.vars dset step (List.zipWith (fun a sl => sl.start + a) lidx T.localSlice)

/-- Axis names `{0:'x', 1:'y', 2:'z'}[i]` used for the spatial dimensions. -/
def axisName (i : Nat) : String :=
  if i = 0 then "x" else if i = 1 then "y" else "z"

/-- `NCFile.__init__` (coordinate values aside, which `coordArrays` models):
the base-class domain/shape consistency check (modelled from the spec:
`DimensionMismatch` is raised at construction when the supplied domain's
length differs from the number of axes; the check lives in `FileBase`, not
under src/), then the dtype assertion `dtype.char in 'fdg'`, then in write
mode the creation of the time dimension and of one named dimension and
coordinate variable per axis, followed by a sync.  `domain[0]` raises
`IndexError` on an empty domain, and the axis-name table raises `KeyError`
past three dimensions. -/
def init (T : PFFT) (domain : List DomainEntry) (mode : Mode) : Except Err NCSt :=
  if domain.length ≠ T.N.length then .error .dimensionMismatch
  else if ¬ (T.dtypeChar = 'f' ∨ T.dtypeChar = 'd' ∨ T.dtypeChar = 'g') then
    .error .unsupportedDType
  else
    match mode with
    | .w =>
        if domain.length = 0 then .error .indexError
        else if 3 < T.N.length then .error .keyError
        else .ok
          { time := []
            dims := "time" :: (List.range T.N.length).map axisName
            handles := []
            vars := fun _ _ _ => none
            varDims := fun _ => none
            attrs := fun _ => none
            synced := 1 }
    | _ =>
        .ok
          { time := []
            dims := []
            handles := []
            vars := fun _ _ _ => none
            varDims := fun _ => none
            attrs := fun _ => none
            synced := 0 }

/-- A sequence of successive `write` calls, each a step value with its
fields. -/
def writeSeq (st : NCSt) (T : PFFT) : List (Val × List (String × FieldData)) → NCSt
  | [] => st
  | (step, fields) :: rest => writeSeq (write st T step fields).1 T rest

end NCFile

/-- The state of a writer freshly opened in write mode over a 2-axis global
shape, as produced by `NCFile.init`. -/
def sampleSt : NCSt :=
  { time := []
    dims := ["time", "x", "y"]
    handles := []
    vars := fun _ _ _ => none
    varDims := fun _ => none
    attrs := fun _ => none
    synced := 1 }

lemma headD_eq_getD (s : List Slc) (d : Slc) : s.headD d = s.getD 0 d := by
  cases s <;> rfl

lemma tail_getD (s : List Slc) (i : Nat) (d : Slc) : s.tail.getD i d = s.getD (i + 1) d := by
  cases s <;> rfl

lemma localizeEntry_isWhole (e : SpecEntry) (sl : Slc) :
    ((localizeEntry e sl).1).isWhole = e.isWhole := by
  cases e with
  | whole => rfl
  | fixed k =>
      by_cases h : sl.start ≤ k ∧ k < sl.stop <;>
        simp [localizeEntry, h, SpecEntry.isWhole]

/-- Localization never changes which axes are ranged, so the positions of the
`slice` entries are the same on every worker. -/
lemma wholePositions_localize (spec : List SpecEntry) :
    ∀ (s : List Slc) (i : Nat),
      wholePositions (get_local_slices spec s).1 i = wholePositions spec i := by
  induction spec with
  | nil => intro s i; rfl
  | cons e rest ih =>
      intro s i
      unfold get_local_slices wholePositions
      rw [localizeEntry_isWhole]
      cases h : e.isWhole <;> simp [h, ih]

lemma gls_fst_get? (spec : List SpecEntry) :
    ∀ (s : List Slc) (i : Nat),
      ((get_local_slices spec s).1).get? i
        = (spec.get? i).map fun e => (localizeEntry e (s.getD i ⟨0, 0⟩)).1 := by
  induction spec with
  | nil => intro s i; simp [get_local_slices]
  | cons e rest ih =>
      intro s i
      cases i with
      | zero => cases s <;> simp [get_local_slices]
      | succ n =>
          have h1 := ih s.tail n
          rw [tail_getD] at h1
          simpa [get_local_slices] using h1

lemma gls_snd_false (spec : List SpecEntry) :
    ∀ (s : List Slc) (i : Nat) (e : SpecEntry),
      spec.get? i = some e → (localizeEntry e (s.getD i ⟨0, 0⟩)).2 = false →
      (get_local_slices spec s).2 = false := by
  induction spec with
  | nil => intro s i e h _; simp at h
  | cons a rest ih =>
      intro s i e h hf
      cases i with
      | zero =>
          rw [List.get?_cons_zero, Option.some.injEq] at h
          subst h
          have hf' : (localizeEntry a (s.headD ⟨0, 0⟩)).2 = false := by rwa [headD_eq_getD]
          show ((localizeEntry a (s.headD ⟨0, 0⟩)).2 && (get_local_slices rest s.tail).2) = false
          rw [hf']
          exact Bool.false_and _
      | succ n =>
          rw [List.get?_cons_succ] at h
          have h2 := ih s.tail n e h (by rwa [tail_getD])
          simp [get_local_slices, h2]

/-- Closed form of `NCFile.writeSliceStep` with each state component made
explicit. -/
lemma writeSliceStep_eq (st : NCSt) (T : PFFT) (name : String) (it : Nat)
    (spec : List SpecEntry) (u : List Nat → Val) :
    NCFile.writeSliceStep st T name it spec u =
      { time := st.time
        dims := st.dims
        handles :=
          if name ++ "_" ++ get_slice_name spec ∈ st.handles then st.handles
          else (name ++ "_" ++ get_slice_name spec) :: st.handles
        vars :=
          if (get_local_slices spec T.localSlice).2
              && decide (1 ≤ ((wholePositions (get_local_slices spec T.localSlice).1 0).map
                    fun i => T.localSlice.getD i ⟨0, 0⟩).length)
              && decide ((((wholePositions (get_local_slices spec T.localSlice).1 0).map
                    fun i => T.localSlice.getD i ⟨0, 0⟩)).length ≤ 3) then
            updf st.vars (name ++ "_" ++ get_slice_name spec)
              (assignN (st.vars (name ++ "_" ++ get_slice_name spec)) it
                ((wholePositions (get_local_slices spec T.localSlice).1 0).map
                    fun i => T.localSlice.getD i ⟨0, 0⟩)
                (selectLocal (get_local_slices spec T.localSlice).1 u))
          else st.vars
        varDims :=
          if name ++ "_" ++ get_slice_name spec ∈ st.handles then st.varDims
          else updf st.varDims (name ++ "_" ++ get_slice_name spec)
            (some ("time" :: (wholePositions (get_local_slices spec T.localSlice).1 0).map
                fun i => st.dims.getD (i + 1) ""))
        attrs :=
          if name ++ "_" ++ get_slice_name spec ∈ st.handles then st.attrs
          else updf st.attrs (name ++ "_" ++ get_slice_name spec)
            (some (pyStr (get_local_slices spec T.localSlice).1))
        synced := st.synced + 1 } := by
  unfold NCFile.writeSliceStep
  dsimp only
  split_ifs <;> rfl

/-- Closed form of `NCFile.writeGroup`. -/
lemma writeGroup_eq (st : NCSt) (T : PFFT) (name : String) (u : List Nat → Val) (it : Nat) :
    NCFile.writeGroup st T name u it =
      let st1 :=
        { st with
            handles := if name ∈ st.handles then st.handles else name :: st.handles,
            varDims := if name ∈ st.handles then st.varDims
              else updf st.varDims name (some st.dims) }
      if T.ndim = 3 then
        ({ st1 with
            vars := updf st.vars name
              (assignN (st.vars name) it
                [T.localSlice.getD 0 ⟨0, 0⟩, T.localSlice.getD 1 ⟨0, 0⟩,
                  T.localSlice.getD 2 ⟨0, 0⟩] u),
            synced := st.synced + 1 }, none)
      else if T.ndim = 2 then
        ({ st1 with
            vars := updf st.vars name
              (assignN (st.vars name) it
                [T.localSlice.getD 0 ⟨0, 0⟩, T.localSlice.getD 1 ⟨0, 0⟩] u),
            synced := st.synced + 1 }, none)
      else (st1, some .notImplemented) := by
  unfold NCFile.writeGroup
  dsimp only
  split_ifs <;> rfl

lemma writeGroup_time (st : NCSt) (T : PFFT) (name : String) (u : List Nat → Val) (it : Nat) :
    (NCFile.writeGroup st T name u it).1.time = st.time := by
  rw [writeGroup_eq]
  dsimp only
  split_ifs <;> rfl

lemma writeSliceStep_time (st : NCSt) (T : PFFT) (name : String) (it : Nat)
    (spec : List SpecEntry) (u : List Nat → Val) :
    (NCFile.writeSliceStep st T name it spec u).time = st.time := by
  rw [writeSliceStep_eq]

lemma fileBaseWrite_time (T : PFFT) (it : Nat) :
    ∀ (fields : List (String × FieldData)) (st : NCSt),
      (NCFile.fileBaseWrite st T it fields).1.time = st.time := by
  intro fields
  induction fields with
  | nil => intro st; rfl
  | cons f rest ih =>
      intro st
      obtain ⟨name, fd⟩ := f
      cases fd with
      | full u =>
          show (NCFile.fileBaseWrite st T it ((name, .full u) :: rest)).1.time = st.time
          unfold NCFile.fileBaseWrite
          dsimp only
          rcases h : (NCFile.writeGroup st T name u it).2 with _ | e
          · rw [ih]
            exact writeGroup_time st T name u it
          · exact writeGroup_time st T name u it
      | sliced spec u =>
          show (NCFile.fileBaseWrite (NCFile.writeSliceStep st T name it spec u) T it rest).1.time
              = st.time
          rw [ih, writeSliceStep_time]

lemma ncSet_append (t : List Val) (v : Val) : ncSet t t.length v = t ++ [v] := by
  induction t with
  | nil => rfl
  | cons a t ih =>
      unfold ncSet at ih ⊢
      have h1 : (a :: t).length + 1 - (a :: t).length = 1 := by omega
      have h2 : t.length + 1 - t.length = 1 := by omega
      rw [h1]
      rw [h2] at ih
      simp only [List.replicate] at ih ⊢
      exact congrArg (a :: ·) ih

lemma write_time (st : NCSt) (T : PFFT) (step : Val) (fields : List (String × FieldData)) :
    (NCFile.write st T step fields).1.time = st.time ++ [step] := by
  unfold NCFile.write
  dsimp only
  rw [fileBaseWrite_time]
  exact ncSet_append st.time step

lemma writeSeq_time (T : PFFT) :
    ∀ (calls : List (Val × List (String × FieldData))) (st : NCSt),
      (NCFile.writeSeq st T calls).time = st.time ++ calls.map (·.1) := by
  intro calls
  induction calls with
  | nil => intro st; simp [NCFile.writeSeq]
  | cons c rest ih =>
      intro st
      obtain ⟨step, fields⟩ := c
      show (NCFile.writeSeq (NCFile.write st T step fields).1 T rest).time = _
      rw [ih, write_time]
      simp

lemma init_time (T : PFFT) (domain : List DomainEntry) (mode : Mode) (st : NCSt)
    (h : NCFile.init T domain mode = .ok st) : st.time = [] := by
  unfold NCFile.init at h
  split_ifs at h <;> cases mode <;> simp_all <;> rw [← h]

lemma getD_of_get? {α : Type} (l : List α) (i : Nat) (a d : α) (h : l.get? i = some a) :
    l.getD i d = a := by
  induction l generalizing i with
  | nil => simp at h
  | cons x xs ih =>
      cases i with
      | zero =>
          rw [List.get?_cons_zero, Option.some.injEq] at h
          exact h
      | succ n =>
          rw [List.get?_cons_succ] at h
          exact ih n h

/-- C3: for every slice specification and worker, a fixed index `k` on axis
`i` contributes the local offset `k - local_start[i]` to the selector when
`local_start[i] ≤ k < local_stop[i]`, and otherwise makes `inside` false; and
on global shape `(8,8)` with worker 0 owning rows `[0,4)` and worker 1 owning
rows `[4,8)`, the specification `(fixed 2, whole)` gives worker 0
`inside = true` with local offset `2` and worker 1 `inside = false`. -/
theorem local_slice_mapping :
    (∀ (spec : List SpecEntry) (s : List Slc) (i k : Nat) (sl : Slc),
      spec.get? i = some (.fixed k) → s.get? i = some sl →
      ((sl.start ≤ k ∧ k < sl.stop →
          ((get_local_slices spec s).1).get? i = some (.fixed (k - sl.start))) ∧
        (¬ (sl.start ≤ k ∧ k < sl.stop) → (get_local_slices spec s).2 = false))) ∧
    get_local_slices [.fixed 2, .whole] [⟨0, 4⟩, ⟨0, 8⟩] = ([.fixed 2, .whole], true) ∧
    get_local_slices [.fixed 2, .whole] [⟨4, 8⟩, ⟨0, 8⟩] = ([.fixed 2, .whole], false) := by
  refine ⟨?_, by decide, by decide⟩
  intro spec s i k sl hspec hs
  have hgd : s.getD i ⟨0, 0⟩ = sl := getD_of_get? s i sl ⟨0, 0⟩ hs
  constructor
  · intro hin
    rw [gls_fst_get?, hspec]
    simp only [Option.map_some']
    rw [hgd]
    simp [localizeEntry, hin]
  · intro hout
    refine gls_snd_false spec s i _ hspec ?_
    rw [hgd]
    simp [localizeEntry, hout]

/-- Witness for C3 at concrete inputs: axis 0 fixed at 3 against local range
`[1,5)` contributes offset `2`; fixed at 9 against `[1,5)` makes `inside`
false. -/
theorem local_slice_mapping_w :
    ((get_local_slices [.fixed 3] [⟨1, 5⟩]).1).get? 0 = some (.fixed 2) ∧
    (get_local_slices [.fixed 9] [⟨1, 5⟩]).2 = false :=
  ⟨(local_slice_mapping.1 [.fixed 3] [⟨1, 5⟩] 0 3 ⟨1, 5⟩ rfl rfl).1 (by decide),
    (local_slice_mapping.1 [.fixed 9] [⟨1, 5⟩] 0 9 ⟨1, 5⟩ rfl rfl).2 (by decide)⟩

/-- C4: a worker whose local range excludes a fixed index of the slice
specification has `inside = false` and writes no data (`vars` unchanged), yet
its variable-creation metadata (the cached handle key and the created
dimension signature) is the same as any other worker's, and it issues the
post-write flush exactly as an inside worker does. -/
theorem outside_worker_collective (st : NCSt) (T T' : PFFT) (name : String) (it : Nat)
    (spec : List SpecEntry) (u : List Nat → Val)
    (hout : (get_local_slices spec T.localSlice).2 = false) :
    (NCFile.writeSliceStep st T name it spec u).vars = st.vars ∧
    (NCFile.writeSliceStep st T name it spec u).handles
      = (NCFile.writeSliceStep st T' name it spec u).handles ∧
    (NCFile.writeSliceStep st T name it spec u).varDims
      = (NCFile.writeSliceStep st T' name it spec u).varDims ∧
    (NCFile.writeSliceStep st T name it spec u).synced = st.synced + 1 ∧
    (NCFile.writeSliceStep st T' name it spec u).synced = st.synced + 1 := by
  rw [writeSliceStep_eq, writeSliceStep_eq]
  refine ⟨?_, rfl, ?_, rfl, rfl⟩
  · simp [hout]
  · rw [wholePositions_localize, wholePositions_localize]

/-- Witness for C4: worker 1 (rows `[4,8)`) is outside `(fixed 2, whole)`;
its data is untouched while its handle cache, variable signature and flush
agree with worker 0 (rows `[0,4)`). -/
theorem outside_worker_collective_w :
    (NCFile.writeSliceStep sampleSt
        { N := [8, 8], localSlice := [⟨4, 8⟩, ⟨0, 8⟩], dtypeChar := 'd' }
        "u" 0 [.fixed 2, .whole] (fun _ => 0)).vars = sampleSt.vars ∧
    (NCFile.writeSliceStep sampleSt
        { N := [8, 8], localSlice := [⟨4, 8⟩, ⟨0, 8⟩], dtypeChar := 'd' }
        "u" 0 [.fixed 2, .whole] (fun _ => 0)).handles
      = (NCFile.writeSliceStep sampleSt
          { N := [8, 8], localSlice := [⟨0, 4⟩, ⟨0, 8⟩], dtypeChar := 'd' }
          "u" 0 [.fixed 2, .whole] (fun _ => 0)).handles ∧
    (NCFile.writeSliceStep sampleSt
        { N := [8, 8], localSlice := [⟨4, 8⟩, ⟨0, 8⟩], dtypeChar := 'd' }
        "u" 0 [.fixed 2, .whole] (fun _ => 0)).varDims
      = (NCFile.writeSliceStep sampleSt
          { N := [8, 8], localSlice := [⟨0, 4⟩, ⟨0, 8⟩], dtypeChar := 'd' }
          "u" 0 [.fixed 2, .whole] (fun _ => 0)).varDims ∧
    (NCFile.writeSliceStep sampleSt
        { N := [8, 8], localSlice := [⟨4, 8⟩, ⟨0, 8⟩], dtypeChar := 'd' }
        "u" 0 [.fixed 2, .whole] (fun _ => 0)).synced = sampleSt.synced + 1 ∧
    (NCFile.writeSliceStep sampleSt
        { N := [8, 8], localSlice := [⟨0, 4⟩, ⟨0, 8⟩], dtypeChar := 'd' }
        "u" 0 [.fixed 2, .whole] (fun _ => 0)).synced = sampleSt.synced + 1 :=
  outside_worker_collective sampleSt
    { N := [8, 8], localSlice := [⟨4, 8⟩, ⟨0, 8⟩], dtypeChar := 'd' }
    { N := [8, 8], localSlice := [⟨0, 4⟩, ⟨0, 8⟩], dtypeChar := 'd' }
    "u" 0 [.fixed 2, .whole] (fun _ => 0) (by decide)

/-- C5 (code bug): the `slices` string attribute attached at variable creation
records the slices after `_get_local_slices` has shifted fixed indices to
this worker's local offsets, not the original global specification.  The
worker owning rows `[4,8)` writing `(fixed 5, whole)` records the localized
`(fixed 1, whole)`, which differs from the supplied specification's string. -/
theorem slices_attr_records_localized :
    (NCFile.writeSliceStep sampleSt
        { N := [8, 8], localSlice := [⟨4, 8⟩, ⟨0, 8⟩], dtypeChar := 'd' }
        "u" 0 [.fixed 5, .whole] (fun _ => 0)).attrs
        ("u_" ++ get_slice_name [.fixed 5, .whole])
      = some (pyStr [.fixed 1, .whole]) ∧
    pyStr [.fixed 1, .whole] ≠ pyStr [.fixed 5, .whole] := by
  refine ⟨?_, by decide⟩
  rw [writeSliceStep_eq]
  rfl

/-- C7: construction fails with `DimensionMismatch` whenever the supplied
domain's length differs from the number of axes of the global shape. -/
theorem init_dimension_mismatch (T : PFFT) (domain : List DomainEntry) (mode : Mode)
    (h : domain.length ≠ T.N.length) :
    NCFile.init T domain mode = .error .dimensionMismatch := by
  unfold NCFile.init
  rw [if_pos h]

/-- Witness for C7: one domain entry against a two-axis shape. -/
theorem init_dimension_mismatch_w :
    NCFile.init { N := [8, 8], localSlice := [⟨0, 4⟩, ⟨0, 8⟩], dtypeChar := 'd' }
      [.pair 0 1] .w = .error .dimensionMismatch :=
  init_dimension_mismatch _ _ _ (by decide)

/-- C8: with a consistent domain, construction fails with `UnsupportedDType`
for every dtype character outside the supported floating kinds
`{'f','d','g'}`, and for a supported kind it never fails with that error. -/
theorem init_dtype_check (T : PFFT) (domain : List DomainEntry) (mode : Mode) :
    (domain.length = T.N.length →
      ¬ (T.dtypeChar = 'f' ∨ T.dtypeChar = 'd' ∨ T.dtypeChar = 'g') →
      NCFile.init T domain mode = .error .unsupportedDType) ∧
    ((T.dtypeChar = 'f' ∨ T.dtypeChar = 'd' ∨ T.dtypeChar = 'g') →
      NCFile.init T domain mode ≠ .error .unsupportedDType) := by
  constructor
  · intro hlen hd
    unfold NCFile.init
    rw [if_neg (by simp [hlen]), if_pos hd]
  · intro hd
    cases mode <;> unfold NCFile.init <;> split_ifs <;> simp_all

/-- Witness for C8: an integer dtype `'i'` is rejected with
`UnsupportedDType`; the double dtype `'d'` is not. -/
theorem init_dtype_check_w :
    NCFile.init { N := [8, 8], localSlice := [], dtypeChar := 'i' }
        [.pair 0 1, .pair 0 1] .w = .error .unsupportedDType ∧
    NCFile.init { N := [8, 8], localSlice := [], dtypeChar := 'd' }
        [.pair 0 1, .pair 0 1] .w ≠ .error .unsupportedDType :=
  ⟨(init_dtype_check _ _ _).1 (by decide) (by decide),
    (init_dtype_check _ _ _).2 (by decide)⟩

/-- C9: the cached variable name derived from a slice specification is a
deterministic function of the field name and the specification alone: the
handle cache after a slice write is determined by them, independently of the
worker's decomposition, the time index and the data. -/
theorem slice_variable_name_deterministic (st : NCSt) (T T' : PFFT) (name : String)
    (it it' : Nat) (spec : List SpecEntry) (u u' : List Nat → Val) :
    (NCFile.writeSliceStep st T name it spec u).handles
      = (if name ++ "_" ++ get_slice_name spec ∈ st.handles then st.handles
         else (name ++ "_" ++ get_slice_name spec) :: st.handles) ∧
    (NCFile.writeSliceStep st T name it spec u).handles
      = (NCFile.writeSliceStep st T' name it' spec u').handles := by
  rw [writeSliceStep_eq, writeSliceStep_eq]
  exact ⟨rfl, rfl⟩

/-- C10: a full-field write on a decomposition that is neither 2D nor 3D
raises `NotImplementedError`, and by then the variable has already been
created and cached. -/
theorem write_group_ndim_not_implemented (st : NCSt) (T : PFFT) (name : String)
    (u : List Nat → Val) (it : Nat) (h2 : T.ndim ≠ 2) (h3 : T.ndim ≠ 3) :
    (NCFile.writeGroup st T name u it).2 = some .notImplemented ∧
    name ∈ (NCFile.writeGroup st T name u it).1.handles := by
  rw [writeGroup_eq]
  dsimp only
  rw [if_neg h3, if_neg h2]
  refine ⟨rfl, ?_⟩
  by_cases h : name ∈ st.handles <;> simp [h]

/-- Witness for C10: a 1D decomposition raises `NotImplementedError` with the
variable cached. -/
theorem write_group_ndim_not_implemented_w :
    (NCFile.writeGroup sampleSt { N := [8], localSlice := [⟨0, 8⟩], dtypeChar := 'd' }
        "u" (fun _ => 0) 0).2 = some .notImplemented ∧
    "u" ∈ (NCFile.writeGroup sampleSt { N := [8], localSlice := [⟨0, 8⟩], dtypeChar := 'd' }
        "u" (fun _ => 0) 0).1.handles :=
  write_group_ndim_not_implemented _ _ _ _ _ (by decide) (by decide)

/-- C1: opened in write mode the time axis starts empty, so after `N`
successive `write` calls its length is exactly `N`; the trace after any
prefix of `k` calls is exactly the first `k` step values in call order, so
call `k` appends its step at index `k`, which is the time-axis length at the
start of that call — the length grows by one per call, never decreases, and
no index is reused. -/
theorem nc_write_time_axis (T : PFFT) (domain : List DomainEntry) (st0 : NCSt)
    (hinit : NCFile.init T domain .w = .ok st0)
    (calls : List (Val × List (String × FieldData))) :
    (NCFile.writeSeq st0 T calls).time.length = calls.length ∧
    (∀ k, (NCFile.writeSeq st0 T (calls.take k)).time = (calls.map (·.1)).take k) := by
  have h0 : st0.time = [] := init_time T domain .w st0 hinit
  constructor
  · rw [writeSeq_time, h0]
    simp
  · intro k
    rw [writeSeq_time, h0]
    simp [List.map_take]

/-- Witness for C1: two writes with steps 5 and 7 on a freshly opened writer
give a time axis of length 2, and after the first call the axis holds exactly
the first step. -/
theorem nc_write_time_axis_w :
    (NCFile.writeSeq sampleSt { N := [8, 8], localSlice := [⟨0, 4⟩, ⟨0, 8⟩], dtypeChar := 'd' }
        [(5, []), (7, [])]).time.length = 2 ∧
    (NCFile.writeSeq sampleSt { N := [8, 8], localSlice := [⟨0, 4⟩, ⟨0, 8⟩], dtypeChar := 'd' }
        (([(5, []), (7, [])] : List (Val × List (String × FieldData))).take 1)).time
      = (([(5, []), (7, [])] : List (Val × List (String × FieldData))).map (·.1)).take 1 :=
  have h := nc_write_time_axis { N := [8, 8], localSlice := [⟨0, 4⟩, ⟨0, 8⟩], dtypeChar := 'd' }
    [.pair 0 1, .pair 0 1] sampleSt rfl [(5, []), (7, [])]
  ⟨h.1, h.2 1⟩

/-- C2: on a 2D or 3D decomposition, writing a worker's full local block at
time index `it` and reading the same name back at step `it` over that
worker's local range returns exactly the written values. -/
theorem nc_write_read_roundtrip :
    (∀ (st : NCSt) (T : PFFT) (name : String) (u : List Nat → Val) (it : Nat)
        (s0 s1 : Slc) (a b : Nat),
      T.ndim = 2 → T.localSlice = [s0, s1] →
      s0.start + a < s0.stop → s1.start + b < s1.stop →
      NCFile.read (NCFile.writeGroup st T name u it).1 T name it [a, b]
        = some (u [a, b])) ∧
    (∀ (st : NCSt) (T : PFFT) (name : String) (u : List Nat → Val) (it : Nat)
        (s0 s1 s2 : Slc) (a b c : Nat),
      T.ndim = 3 → T.localSlice = [s0, s1, s2] →
      s0.start + a < s0.stop → s1.start + b < s1.stop → s2.start + c < s2.stop →
      NCFile.read (NCFile.writeGroup st T name u it).1 T name it [a, b, c]
        = some (u [a, b, c])) := by
  constructor
  · intro st T name u it s0 s1 a b h2 hs ha hb
    rw [writeGroup_eq]
    dsimp only
    rw [if_neg (by simp [h2]), if_pos h2]
    unfold NCFile.read
    rw [hs]
    simp [updf, assignN, inBox, Nat.le_add_right, ha, hb, Nat.add_sub_cancel_left]
  · intro st T name u it s0 s1 s2 a b c h3 hs ha hb hc
    rw [writeGroup_eq]
    dsimp only
    rw [if_pos h3]
    unfold NCFile.read
    rw [hs]
    simp [updf, assignN, inBox, Nat.le_add_right, ha, hb, hc, Nat.add_sub_cancel_left]

/-- Witness for C2: worker owning rows `[0,4)` and columns `[0,8)` of an
`(8,8)` shape writes its block and reads back the value at local index
`(1,2)` unchanged. -/
theorem nc_write_read_roundtrip_w :
    NCFile.read (NCFile.writeGroup sampleSt
        { N := [8, 8], localSlice := [⟨0, 4⟩, ⟨0, 8⟩], dtypeChar := 'd' }
        "u" (fun l => ((l.getD 0 0 : Nat) : Int) * 10 + ((l.getD 1 0 : Nat) : Int)) 0).1
      { N := [8, 8], localSlice := [⟨0, 4⟩, ⟨0, 8⟩], dtypeChar := 'd' } "u" 0 [1, 2]
      = some ((fun l => ((l.getD 0 0 : Nat) : Int) * 10 + ((l.getD 1 0 : Nat) : Int)) [1, 2]) :=
  nc_write_read_roundtrip.1 sampleSt
    { N := [8, 8], localSlice := [⟨0, 4⟩, ⟨0, 8⟩], dtypeChar := 'd' }
    "u" (fun l => ((l.getD 0 0 : Nat) : Int) * 10 + ((l.getD 1 0 : Nat) : Int)) 0
    ⟨0, 4⟩ ⟨0, 8⟩ 1 2 rfl rfl (by decide) (by decide)

/-- C6 counterexample: with supplied domain entry `(origin, length) = (0, 1)`
on a 4-point axis, the coordinate array the code writes is not the uniform
grid over that pair — at index 1 the code stores `2π/4 = π/2`, not `1/4`. -/
theorem coord_not_grid_over_domain :
    (coordArrays [.pair 0 1] [4]).getD 0 (fun _ => 0) 1 ≠ uniformGridOver 0 1 4 1 := by
  intro h
  rw [show (coordArrays [.pair 0 1] [4]).getD 0 (fun _ => 0) 1
      = ((1 : Nat) : ℝ) * 2 * Real.pi / ((4 : Nat) : ℝ) from rfl] at h
  unfold uniformGridOver at h
  push_cast at h
  nlinarith [Real.pi_gt_three]

/-- C6 amended: when the first domain entry is an `(origin, length)` 2-tuple,
the coordinate array written for axis `i` is `j·(2π/N_i)` at index `j`,
regardless of the supplied origin and length. -/
theorem coord_uniform_grid_ignores_domain (o l : ℝ) (rest : List DomainEntry)
    (N : List Nat) (i j : Nat) (h : i < rest.length + 1) :
    (coordArrays (.pair o l :: rest) N).getD i (fun _ => 0) j
      = ((j : Nat) : ℝ) * 2 * Real.pi / ((N.getD i 0 : Nat) : ℝ) := by
  unfold coordArrays
  rw [List.getD_eq_getElem?_getD, List.getElem?_map]
  rw [show (DomainEntry.pair o l :: rest).length = rest.length + 1 from rfl,
    List.getElem?_range h]
  rfl

/-- Witness for C6: domain entry `(5, 7)` is ignored; the 4-point axis still
gets `1·2π/4` at index 1. -/
theorem coord_uniform_grid_ignores_domain_w :
    (coordArrays [.pair 5 7] [4]).getD 0 (fun _ => 0) 1
      = ((1 : Nat) : ℝ) * 2 * Real.pi / (([4].getD 0 0 : Nat) : ℝ) :=
  coord_uniform_grid_ignores_domain 5 7 [] [4] 0 1 (by decide)
